import Mathlib

/-!
Verification of the log streaming and state engine of a terminal log viewer
(src/main.rs).  Rust strings are modelled as Lean `String`/`List Char`;
byte buffers as `List Nat` (each element < 256); `u64`/`usize` arithmetic as
`Nat` with explicit saturation where the source saturates; fallible code
(string slicing that can abort the thread) returns `Except String`.
-/

/- ------------------------------------------------------------------
   Character / string helpers mirroring the Rust standard library
   operations used by main.rs.
   ------------------------------------------------------------------ -/

/-- Model of Rust `u8::is_ascii_whitespace` / `char` ASCII whitespace:
space, tab, line feed, form feed, carriage return. -/
def is_ascii_ws (c : Char) : Bool :=
  c == ' ' || c == '\t' || c == '\n' || c == Char.ofNat 12 || c == '\r'

/-- Model of Rust `char::is_whitespace` (Unicode `White_Space` property). -/
def rust_is_ws (c : Char) : Bool :=
  let n := c.toNat
  (0x09 ≤ n && n ≤ 0x0D) || n == 0x20 || n == 0x85 || n == 0xA0 ||
  n == 0x1680 || (0x2000 ≤ n && n ≤ 0x200A) || n == 0x2028 || n == 0x2029 ||
  n == 0x202F || n == 0x205F || n == 0x3000

/-- Model of Rust `char::to_ascii_lowercase`. -/
def ascii_lower_char (c : Char) : Char :=
  if 'A' ≤ c ∧ c ≤ 'Z' then Char.ofNat (c.toNat + 32) else c

/-- Model of Rust `str::to_ascii_lowercase`. -/
def ascii_lowercase (s : String) : String :=
  String.mk (s.data.map ascii_lower_char)

/-- UTF-8 byte length of a character sequence (Rust `str::len`). -/
def utf8_len (cs : List Char) : Nat :=
  (cs.map Char.utf8Size).sum

/-- Model of Rust `str::find(&str)`: byte index of the first occurrence of
`key` in `hay` (occurrences start at character boundaries in valid UTF-8). -/
def rust_find : List Char → List Char → Option Nat
  | hay, key =>
    match hay with
    | [] => if key.isEmpty then some 0 else none
    | c :: rest =>
      if key.isPrefixOf (c :: rest) then some 0
      else (rust_find rest key).map (fun i => i + c.utf8Size)

/-- Model of Rust `str::contains(&str)`: substring occurrence. -/
def str_contains (hay pat : String) : Bool :=
  (rust_find hay.data pat.data).isSome

/-- Model of Rust string slicing `&s[j..]` with a byte index `j`:
returns `none` (a panic) when `j` is not a character boundary or is out of
range, otherwise the suffix starting at byte `j`. -/
def byte_suffix : List Char → Nat → Option (List Char)
  | cs, 0 => some cs
  | [], _ + 1 => none
  | c :: cs, j + 1 =>
    if j + 1 < c.utf8Size then none else byte_suffix cs (j + 1 - c.utf8Size)

/-- Numeric value of a run of ASCII digits (Rust `str::parse` after
`take_while(is_ascii_digit)`). -/
def digits_to_nat (ds : List Char) : Nat :=
  ds.foldl (fun a c => a * 10 + (c.toNat - 48)) 0

/-- Largest value of Rust `u64`. -/
def U64_MAX : Nat := 2 ^ 64 - 1

/- ------------------------------------------------------------------
   Line Decoder (spawn_tail, main.rs lines 667-686).
   ------------------------------------------------------------------ -/

/-- Unicode replacement character U+FFFD used by lossy UTF-8 decoding. -/
def repl : Char := Char.ofNat 0xFFFD

/-- Whether a byte is a UTF-8 continuation byte. -/
def cont_ok (b : Nat) : Bool := decide (0x80 ≤ b ∧ b ≤ 0xBF)

/-- Valid range of the first continuation byte of a three-byte sequence. -/
def cont1_ok3 (b b1 : Nat) : Bool :=
  let lo := if b = 0xE0 then 0xA0 else 0x80
  let hi := if b = 0xED then 0x9F else 0xBF
  decide (lo ≤ b1 ∧ b1 ≤ hi)

/-- Valid range of the first continuation byte of a four-byte sequence. -/
def cont1_ok4 (b b1 : Nat) : Bool :=
  let lo := if b = 0xF0 then 0x90 else 0x80
  let hi := if b = 0xF4 then 0x8F else 0xBF
  decide (lo ≤ b1 ∧ b1 ≤ hi)

/-- Model of Rust `String::from_utf8_lossy`: decode a byte sequence,
replacing each maximal invalid subpart (and a truncated sequence at the
end) with one U+FFFD, per the Unicode substitution of maximal subparts
that the Rust standard library implements. -/
def utf8_lossy : List Nat → List Char
  | [] => []
  | b :: rest =>
    if b < 0x80 then Char.ofNat b :: utf8_lossy rest
    else if b < 0xC2 then repl :: utf8_lossy rest
    else if b ≤ 0xDF then
      match rest with
      | [] => [repl]
      | b1 :: r1 =>
        if cont_ok b1 then
          Char.ofNat ((b - 0xC0) * 0x40 + (b1 - 0x80)) :: utf8_lossy r1
        else repl :: utf8_lossy (b1 :: r1)
    else if b ≤ 0xEF then
      match rest with
      | [] => [repl]
      | b1 :: r1 =>
        if cont1_ok3 b b1 then
          match r1 with
          | [] => [repl]
          | b2 :: r2 =>
            if cont_ok b2 then
              Char.ofNat ((b - 0xE0) * 0x1000 + (b1 - 0x80) * 0x40 + (b2 - 0x80))
                :: utf8_lossy r2
            else repl :: utf8_lossy (b2 :: r2)
        else repl :: utf8_lossy (b1 :: r1)
    else if b ≤ 0xF4 then
      match rest with
      | [] => [repl]
      | b1 :: r1 =>
        if cont1_ok4 b b1 then
          match r1 with
          | [] => [repl]
          | b2 :: r2 =>
            if cont_ok b2 then
              match r2 with
              | [] => [repl]
              | b3 :: r3 =>
                if cont_ok b3 then
                  Char.ofNat ((b - 0xF0) * 0x40000 + (b1 - 0x80) * 0x1000 +
                    (b2 - 0x80) * 0x40 + (b3 - 0x80)) :: utf8_lossy r3
                else repl :: utf8_lossy (b3 :: r3)
            else repl :: utf8_lossy (b2 :: r2)
        else repl :: utf8_lossy (b1 :: r1)
    else repl :: utf8_lossy rest

/-- Model of Rust `str::split('\n')`: always returns at least one part. -/
def split_nl : List Char → List (List Char)
  | [] => [[]]
  | c :: cs =>
    if c = '\n' then [] :: split_nl cs
    else
      match split_nl cs with
      | h :: t => (c :: h) :: t
      | [] => [[c]]

/-- Per-line post-processing of the decoder (main.rs lines 680-682):
strip one trailing carriage return, then discard the line when its
whitespace-trimmed content is empty. -/
def emit_line (l : List Char) : Option (List Char) :=
  let l2 := if l.getLast? == some '\r' then l.dropLast else l
  if l2.all rust_is_ws then none else some l2

/-- One decode step of the tail worker (main.rs lines 673-686): lossy-decode
the byte chunk, append to the carry, split on newlines, keep the trailing
partial segment as the new carry (empty when the chunk ends in a newline),
and emit the completed lines that survive `emit_line`. -/
def decode_step (carry : List Char) (bytes : List Nat) :
    List (List Char) × List Char :=
  let chunk := utf8_lossy bytes
  let combined := carry ++ chunk
  let parts := split_nl combined
  let pr :=
    if chunk.getLast? == some '\n' then (parts, ([] : List Char))
    else (parts.dropLast, parts.getLast?.getD [])
  (pr.1.filterMap emit_line, pr.2)

/-- Feeding a sequence of byte chunks through `decode_step`, collecting all
emitted lines in order. -/
def decode_run (carry : List Char) : List (List Nat) → List (List Char) × List Char
  | [] => ([], carry)
  | b :: bs =>
    let d := decode_step carry b
    let r := decode_run d.2 bs
    (d.1 ++ r.1, r.2)

/- ------------------------------------------------------------------
   Line Parser (main.rs lines 847-852 and 877-918).
   ------------------------------------------------------------------ -/

/-- Colors used by the source to encode severity in `classify_line`. -/
inductive Color
  | Red
  | Yellow
  | White
deriving DecidableEq, Repr

/-- Model of `classify_line` (main.rs lines 847-852): case-insensitive
substring match, "error" wins over "warning". -/
def classify_line (s : String) : Color :=
  let l := ascii_lowercase s
  if str_contains l "error" then Color.Red
  else if str_contains l "warning" then Color.Yellow
  else Color.White

/-- Severity names used by the design document for the three colors:
Red encodes Error, Yellow encodes Warning, White encodes Normal. -/
inductive Severity
  | Normal
  | Warning
  | Error
deriving DecidableEq, Repr

/-- The design-document severity of a rendered color. -/
def severity_of : Color → Severity
  | Color.Red => Severity.Error
  | Color.Yellow => Severity.Warning
  | Color.White => Severity.Normal

/-- Rust `str::trim_start` (Unicode whitespace) on a character list. -/
def rust_trim_start (cs : List Char) : List Char :=
  cs.dropWhile rust_is_ws

/-- Byte-cursor skip over ASCII whitespace (the `skip_spaces` closure of
`parse_log_components`, main.rs lines 884-888); at a character boundary
this is exactly dropping leading ASCII-whitespace characters. -/
def skip_ascii_ws (cs : List Char) : List Char :=
  cs.dropWhile is_ascii_ws

/-- Timestamp extraction of `parse_log_components` (main.rs lines 890-904):
on a leading `[`, capture up to the first `]` as the timestamp, skip ASCII
whitespace, then skip one optional second bracket group and more ASCII
whitespace.  Returns the captured timestamp (if any) and the remaining
text. -/
def bracket_scan (cs : List Char) : Option (List Char) × List Char :=
  match cs with
  | '[' :: tail =>
    if tail.contains ']' then
      let ts := tail.takeWhile (· != ']')
      let r1 := skip_ascii_ws ((tail.dropWhile (· != ']')).drop 1)
      let r2 :=
        match r1 with
        | '[' :: t2 =>
          if t2.contains ']' then skip_ascii_ws ((t2.dropWhile (· != ']')).drop 1)
          else r1
        | _ => r1
      (some ts, r2)
    else (none, cs)
  | _ => (none, cs)

/-- Category extraction of `parse_log_components` (main.rs lines 908-916):
split at the first colon; when the part before it is non-empty and contains
no space it is the category, and the message is the right part with all
leading colons then leading whitespace removed; otherwise no category and
the message is the text unchanged. -/
def colon_split (rest : List Char) : Option (List Char) × List Char :=
  if rest.contains ':' then
    if rest.takeWhile (· != ':') ≠ [] ∧
        (rest.takeWhile (· != ':')).contains ' ' = false then
      (some (rest.takeWhile (· != ':')),
        rust_trim_start ((rest.dropWhile (· != ':')).dropWhile (· == ':')))
    else (none, rest)
  else (none, rest)

/-- Model of `parse_log_components` (main.rs lines 877-918): returns
(timestamp, category, message). -/
def parse_log_components (s : String) : Option String × Option String × String :=
  let br := bracket_scan s.data
  let rest := rust_trim_start br.2
  let cm := colon_split rest
  (br.1.map String.mk, cm.1.map String.mk, String.mk cm.2)

/- ------------------------------------------------------------------
   Progress Tracker (main.rs lines 532-552 and 857-875).
   ------------------------------------------------------------------ -/

/-- Model of `find_number_after` (main.rs lines 859-868).  The source mixes
byte indices and character indices: `hay.find(key)` and `key.len()` are
byte-based, but the whitespace loop advances `j` with `hay.chars().nth(j)`
(character-based), and `&hay[j..]` then slices at byte `j` — which panics
when `j` is not a character boundary.  A panic is modelled as
`Except.error`. -/
def find_number_after (hay key : String) : Except String (Option Nat) :=
  match rust_find hay.data key.data with
  | none => Except.ok none
  | some i =>
    let j0 := i + utf8_len key.data
    let j := j0 + ((hay.data.drop j0).takeWhile rust_is_ws).length
    match byte_suffix hay.data j with
    | none => Except.error "byte index is not a char boundary"
    | some suf =>
      let digits := suf.takeWhile Char.isDigit
      if digits.isEmpty then Except.ok none
      else if digits_to_nat digits ≤ U64_MAX then Except.ok (some (digits_to_nat digits))
      else Except.ok none

/-- Model of `parse_cook_progress_line` (main.rs lines 857-875): lowercase
the line, extract the three labeled counters, and return them when at least
one of cooked/remain was found. -/
def parse_cook_progress_line (s : String) : Except String (Option (Nat × Nat × Nat)) := do
  let l := ascii_lowercase s
  let cooked ← find_number_after l "cooked packages "
  let remain ← find_number_after l "packages remain "
  let total ← find_number_after l "total "
  if cooked.isSome || remain.isSome then
    pure (some (cooked.getD 0, remain.getD 0, total.getD 0))
  else
    pure none

/- ------------------------------------------------------------------
   View State / App (main.rs lines 56-65, 151-178, 512-552).
   ------------------------------------------------------------------ -/

/-- One parsed log record (struct `LogLine`, main.rs lines 56-65). -/
structure LogLine where
  text : String
  color : Color
  ts : Option String
  category : Option String
  message : String
deriving DecidableEq, Repr

/-- The fields of struct `App` that the streaming/state engine mutates:
scrollback buffer, scroll offset and cook-progress counters
(main.rs lines 151-178). -/
structure AppState where
  lines : List LogLine
  scroll_from_bottom : Nat
  cook_active : Bool
  cook_cooked : Nat
  cook_remain : Nat
  cook_total : Nat
deriving DecidableEq, Repr

/-- Model of `App::update_cook_state` (main.rs lines 532-552).  A panic of
`parse_cook_progress_line` propagates as `Except.error`. -/
def update_cook_state (s : AppState) (text : String) : Except String AppState :=
  if str_contains (ascii_lowercase text) "cook command completed" then
    Except.ok { s with cook_active := false }
  else if str_contains (ascii_lowercase text) "cook command started" then
    Except.ok { s with cook_active := true, cook_cooked := 0, cook_remain := 0,
                       cook_total := 0 }
  else do
    match ← parse_cook_progress_line text with
    | some (cooked, remain, total) =>
      Except.ok { s with cook_active := true, cook_cooked := cooked,
                         cook_remain := remain,
                         cook_total := if 0 < total then total
                                       else min (cooked + remain) U64_MAX }
    | none => Except.ok s

/-- Scrollback capacity (`CAP`, main.rs line 519). -/
def CAP : Nat := 20000

/-- Model of `App::push_line` (main.rs lines 512-530): update the cook
state from the line text, append the line, and on overflow drain the
oldest excess entries and pull a scrolled-back offset down by the eviction
count (Rust `saturating_sub`, i.e. truncated subtraction). -/
def push_line (s : AppState) (line : LogLine) : Except String AppState := do
  let s1 ← update_cook_state s line.text
  if CAP < (s1.lines ++ [line]).length then
    Except.ok { s1 with
      lines := (s1.lines ++ [line]).drop ((s1.lines ++ [line]).length - CAP),
      scroll_from_bottom :=
        if 0 < s1.scroll_from_bottom
        then s1.scroll_from_bottom - ((s1.lines ++ [line]).length - CAP)
        else s1.scroll_from_bottom }
  else
    Except.ok { s1 with lines := s1.lines ++ [line] }

/- ------------------------------------------------------------------
   Viewport addressing (main.rs lines 299-304 and 478-487).
   ------------------------------------------------------------------ -/

/-- Slice bounds computed by the rendering path (`App::draw`,
main.rs lines 299-304): the viewport height is taken as the FULL height of
the body rectangle, `chunks[1].height`, including the two border rows of
the bordered block.  All subtraction is `saturating_sub`. -/
def draw_slice_bounds (total scroll height : Nat) : Nat × Nat :=
  let e := total - scroll
  (e - height, e)

/-- Slice bounds computed by the mouse hit-testing path (`App::on_mouse`,
main.rs lines 481-484): the viewport height is the body rectangle height
MINUS the two border rows (`body.height.saturating_sub(2)`), on the same
rectangle that `draw` stored in `last_body_area`. -/
def mouse_slice_bounds (total scroll height : Nat) : Nat × Nat :=
  let h := height - 2
  let e := total - scroll
  (e - h, e)

/- ------------------------------------------------------------------
   Tail Worker (spawn_tail, main.rs lines 616-704).
   ------------------------------------------------------------------ -/

/-- Mutable state of the tail worker loop (main.rs lines 619-623):
consumed byte offset, decoder carry, and last observed identity
timestamps.  Timestamps are modelled as naturals. -/
structure TailWorker where
  offset : Nat
  carry : List Char
  lastCreated : Option Nat
  lastModified : Option Nat
deriving DecidableEq, Repr

/-- One stat observation of the watched file: current length and
best-effort creation/modification timestamps. -/
structure FileStat where
  len : Nat
  created : Option Nat
  modified : Option Nat
deriving DecidableEq, Repr

/-- The worker's initial consumed offset (main.rs line 619): the file's
current length, or 0 when the stat fails (file absent). -/
def initial_offset (metaLen : Option Nat) : Nat :=
  metaLen.getD 0

/-- Rotation/recreation detection of the tail loop (main.rs lines 642-651):
the creation time changed since last observation, or the modification time
moved backward. -/
def rotation_signal (w : TailWorker) (m : FileStat) : Bool :=
  (match w.lastCreated, m.created with
   | some p, some c => c != p
   | _, _ => false) ||
  (match w.lastModified, m.modified with
   | some p, some c => decide (c < p)
   | _, _ => false)

/-- One iteration of the tail polling loop body (main.rs lines 635-699),
excluding the control-command drain.  Inputs: the stat result (`none` =
file absent) and the bytes available at the current offset (the read
returns `min chunk.length (len - offset)` bytes).  Returns the new worker
state, the byte range `(start, count)` actually consumed (if any), and the
lines emitted by the decoder for this iteration. -/
def tail_poll_step (w : TailWorker) (st : Option FileStat) (chunk : List Nat) :
    TailWorker × Option (Nat × Nat) × List (List Char) :=
  match st with
  | none => ({ w with lastCreated := none, lastModified := none }, none, [])
  | some m =>
    let off0 := if rotation_signal w m then 0 else w.offset
    let carry0 := if rotation_signal w m then ([] : List Char) else w.carry
    let lc := m.created.orElse fun _ => w.lastCreated
    let lm := m.modified.orElse fun _ => w.lastModified
    let off1 := if m.len < off0 then 0 else off0
    if off1 < m.len then
      let toRead := m.len - off1
      let n := min chunk.length toRead
      if 0 < n then
        let d := decode_step carry0 (chunk.take n)
        ({ offset := off1 + n, carry := d.2, lastCreated := lc, lastModified := lm },
          some (off1, n), d.1)
      else
        ({ offset := off1, carry := carry0, lastCreated := lc, lastModified := lm },
          none, [])
    else
      ({ offset := off1, carry := carry0, lastCreated := lc, lastModified := lm },
        none, [])

/-- Folding the polling loop over a trace of (stat, available bytes)
observations, collecting all consumed byte ranges in order. -/
def tail_run (w : TailWorker) : List (FileStat × List Nat) → TailWorker × List (Nat × Nat)
  | [] => (w, [])
  | (m, c) :: rest =>
    let step := tail_poll_step w (some m) c
    let next := tail_run step.1 rest
    (next.1, step.2.1.toList ++ next.2)

/-- An append-only observation trace for a file of constant identity:
every stat reports creation time `c0`, a modification time and length that
never decrease, and the first length is at least `prevLen`. -/
def append_only (c0 : Nat) : Nat → Nat → List (FileStat × List Nat) → Bool
  | _, _, [] => true
  | prevLen, prevMod, (m, _) :: rest =>
    (m.created == some c0) && decide (prevLen ≤ m.len) &&
      (match m.modified with
       | some t => decide (prevMod ≤ t) && append_only c0 m.len t rest
       | none => false)

/- ------------------------------------------------------------------
   Concrete data used by the witnesses.
   ------------------------------------------------------------------ -/

/-- A plain log line used by the witnesses. -/
def demo_line (t : String) : LogLine :=
  { text := t, color := Color.White, ts := none, category := none, message := t }

/-- The initial application state (`App::new`, main.rs lines 184-212). -/
def init_app : AppState :=
  { lines := [], scroll_from_bottom := 0, cook_active := false,
    cook_cooked := 0, cook_remain := 0, cook_total := 0 }

/-- A state holding exactly `CAP` lines, scrolled back by 5 rows. -/
def full_app : AppState :=
  { lines := List.replicate CAP (demo_line "x"), scroll_from_bottom := 5,
    cook_active := false, cook_cooked := 0, cook_remain := 0, cook_total := 0 }

/-- The worker state at session start (main.rs lines 619-623): offset at
the file's current length per `initial_offset`, empty carry, no observed
identity timestamps. -/
def session_start (metaLen : Option Nat) : TailWorker :=
  { offset := initial_offset metaLen, carry := [],
    lastCreated := none, lastModified := none }

/-- Concrete append-only trace used by the C10 witness: the file is 5
bytes long at session start, stays at 5 bytes, then grows to 8. -/
def demo_trace : List (FileStat × List Nat) :=
  [({ len := 5, created := some 1, modified := some 2 }, []),
   ({ len := 8, created := some 1, modified := some 3 }, [104, 105, 10])]

/-- Worker used by the C9 witness: offset 5, empty carry. -/
def demo_worker : TailWorker :=
  { offset := 5, carry := [], lastCreated := none, lastModified := none }

/-- A stat reporting a 3-byte file, shorter than `demo_worker`'s offset. -/
def demo_stat : FileStat :=
  { len := 3, created := some 7, modified := some 9 }

/- ------------------------------------------------------------------
   Theorems.
   ------------------------------------------------------------------ -/

/-- C1: the decoder is NOT chunking-invariant.  The bytes
`[0xC3, 0xA9, 0x0A]` (UTF-8 for an e-acute followed by a newline) decode to
the single line "é" when fed in one chunk, but to the line made of two
U+FFFD replacement characters when split as `[0xC3]` then `[0xA9, 0x0A]`,
because `from_utf8_lossy` is applied to each chunk separately and the split
two-byte character is destroyed.  This contradicts the decoder carry
correctness property. -/
theorem c1_chunking_divergence :
    ([0xC3] ++ [0xA9, 0x0A] = ([0xC3, 0xA9, 0x0A] : List Nat)) ∧
    (decode_run [] [[0xC3, 0xA9, 0x0A]]).1 = [[Char.ofNat 0xE9]] ∧
    (decode_run [] [[0xC3], [0xA9, 0x0A]]).1 = [[repl, repl]] ∧
    (decode_run [] [[0xC3, 0xA9, 0x0A]]).1 ≠ (decode_run [] [[0xC3], [0xA9, 0x0A]]).1 := by
  decide

/-- C7: parsing the line
`"[2024.01.01-12.00.00:000][0]LogRenderer: Warning: shader compile slow"`
yields timestamp `"2024.01.01-12.00.00:000"`, category `"LogRenderer"`,
message `"Warning: shader compile slow"`, and Warning severity
(`classify_line` colors it Yellow, the Warning color). -/
theorem c7_example_parse :
    parse_log_components
        "[2024.01.01-12.00.00:000][0]LogRenderer: Warning: shader compile slow" =
      (some "2024.01.01-12.00.00:000", some "LogRenderer",
        "Warning: shader compile slow") ∧
    severity_of (classify_line
        "[2024.01.01-12.00.00:000][0]LogRenderer: Warning: shader compile slow") =
      Severity.Warning := by
  constructor
  · rfl
  · rfl

/-- C8: feeding the line
`"LogCook: Display: Cooked packages 816 Packages Remain 4532 Total 5348"`
to the progress tracker sets cooked = 816, remain = 4532, total = 5348 and
marks the cook active, from any prior tracker state. -/
theorem c8_progress_example (s : AppState) :
    update_cook_state s
        "LogCook: Display: Cooked packages 816 Packages Remain 4532 Total 5348" =
      Except.ok { s with cook_active := true, cook_cooked := 816,
                         cook_remain := 4532, cook_total := 5348 } := by
  rfl

/-- C3: the progress update is NOT total.  On the line
`"éécooked packages é  1"` the byte/character index confusion inside
`find_number_after` makes `&hay[j..]` slice at byte 21, which is in the
middle of the two-byte character `'é'`, so the Rust code panics; the model
returns the corresponding `Except.error`, and the whole progress update
fails instead of completing. -/
theorem c3_panic_on_multibyte_line :
    find_number_after (ascii_lowercase "éécooked packages é  1") "cooked packages " =
      Except.error "byte index is not a char boundary" ∧
    parse_cook_progress_line "éécooked packages é  1" =
      Except.error "byte index is not a char boundary" ∧
    (∀ s : AppState, update_cook_state s "éécooked packages é  1" =
        Except.error "byte index is not a char boundary") := by
  refine ⟨rfl, rfl, fun s => rfl⟩

/-- C4 counterexample: for the line `"  hello"` the parser finds neither a
timestamp nor a category, yet the produced message is `"hello"`, not the
raw text: `parse_log_components` applies `trim_start` to the remainder, so
leading whitespace is removed. -/
theorem c4_counterexample :
    parse_log_components "  hello" = (none, none, "hello") ∧
    (parse_log_components "  hello").2.2 ≠ "  hello" := by
  constructor
  · rfl
  · decide

/-- C5: the rendering path and the mouse hit-testing path do NOT use the
same viewport height.  With 100 filtered lines, scroll offset 0 and a body
rectangle of height 10, `App::draw` slices `[90, 100)` (it uses the full
rectangle height, 10, including the two border rows) while `App::on_mouse`
computes `[92, 100)` (it uses height minus 2), so a click on content row
`r` addresses the line rendered two rows below `r`. -/
theorem c5_viewport_divergence :
    draw_slice_bounds 100 0 10 = (90, 100) ∧
    mouse_slice_bounds 100 0 10 = (92, 100) ∧
    draw_slice_bounds 100 0 10 ≠ mouse_slice_bounds 100 0 10 := by
  decide

/-- When `bracket_scan` finds no timestamp it leaves the text unchanged. -/
theorem bracket_scan_fst_none {cs : List Char} (h : (bracket_scan cs).1 = none) :
    (bracket_scan cs).2 = cs := by
  unfold bracket_scan at h ⊢
  split at h
  · split at h
    · simp at h
    · simp_all
  · rfl

/-- When `colon_split` finds no category the message is the text
unchanged. -/
theorem colon_split_fst_none {rest : List Char} (h : (colon_split rest).1 = none) :
    (colon_split rest).2 = rest := by
  unfold colon_split at h ⊢
  split at h
  next hc =>
    split at h
    next => simp at h
    next hval => rw [if_pos hc, if_neg hval]
  next hc => rw [if_neg hc]

/-- C4 (amended): whenever the parser finds neither a leading timestamp
bracket nor a category token, the produced message equals the raw line
with its LEADING WHITESPACE STRIPPED (`trim_start`); it equals the raw
line itself exactly when the line does not begin with whitespace. -/
theorem c4_message_trim_start (s : String)
    (h1 : (parse_log_components s).1 = none)
    (h2 : (parse_log_components s).2.1 = none) :
    (parse_log_components s).2.2 = String.mk (rust_trim_start s.data) := by
  unfold parse_log_components at h1 h2 ⊢
  simp only at h1 h2 ⊢
  rw [Option.map_eq_none'] at h1 h2
  rw [bracket_scan_fst_none h1] at h2 ⊢
  rw [colon_split_fst_none h2]

/-- Witness for C4: the line `"plain text here"` has neither timestamp nor
category, and its message is its own `trim_start`. -/
theorem c4_message_trim_start_witness :
    (parse_log_components "plain text here").1 = none ∧
    (parse_log_components "plain text here").2.1 = none ∧
    (parse_log_components "plain text here").2.2 =
      String.mk (rust_trim_start "plain text here".data) :=
  ⟨rfl, rfl, c4_message_trim_start "plain text here" rfl rfl⟩

/-- `update_cook_state` only touches the cook counters: scrollback and
scroll offset pass through unchanged whenever it succeeds. -/
theorem update_cook_state_keeps_view {s s1 : AppState} {t : String}
    (h : update_cook_state s t = Except.ok s1) :
    s1.lines = s.lines ∧ s1.scroll_from_bottom = s.scroll_from_bottom := by
  unfold update_cook_state at h
  split at h
  · cases h; exact ⟨rfl, rfl⟩
  · split at h
    · cases h; exact ⟨rfl, rfl⟩
    · rcases hp : parse_cook_progress_line t with e | v
      · rw [hp] at h; simp [Bind.bind, Except.bind] at h
      · rw [hp] at h
        simp only [Bind.bind, Except.bind] at h
        rcases v with _ | ⟨cooked, remain, total⟩
        · cases h; exact ⟨rfl, rfl⟩
        · cases h; exact ⟨rfl, rfl⟩

/-- Single-step characterization of `push_line` on success: the new buffer
is the old one plus the line with the oldest `length + 1 - CAP` entries
dropped, the new length is `min (length + 1) CAP`, and a positive scroll
offset is pulled down by the eviction count. -/
theorem push_line_ok {s s2 : AppState} {l : LogLine}
    (h : push_line s l = Except.ok s2) :
    s2.lines = (s.lines ++ [l]).drop (s.lines.length + 1 - CAP) ∧
    s2.lines.length = min (s.lines.length + 1) CAP ∧
    s2.scroll_from_bottom =
      (if 0 < s.scroll_from_bottom
       then s.scroll_from_bottom - (s.lines.length + 1 - CAP)
       else s.scroll_from_bottom) := by
  unfold push_line at h
  rcases hu : update_cook_state s l.text with e | s1
  · rw [hu] at h; simp [Bind.bind, Except.bind] at h
  · rw [hu] at h
    simp only [Bind.bind, Except.bind] at h
    obtain ⟨el, es⟩ := update_cook_state_keeps_view hu
    split at h
    next hover =>
      have h2 := Except.ok.inj h
      subst h2
      rw [el] at hover
      simp only [List.length_append, List.length_cons, List.length_nil] at hover
      refine ⟨?_, ?_, ?_⟩
      · simp [el, List.length_append]
      · simp [el, List.length_drop, List.length_append]
        omega
      · simp [el, es, List.length_append]
    next hover =>
      have h2 := Except.ok.inj h
      subst h2
      rw [el] at hover
      simp only [List.length_append, List.length_cons, List.length_nil] at hover
      refine ⟨?_, ?_, ?_⟩
      · rw [el, show s.lines.length + 1 - CAP = 0 by omega, List.drop_zero]
      · simp [el, List.length_append]
        omega
      · rw [es]
        split <;> omega

/-- Folding `push_line` over a list of lines from any state within
capacity: the fold keeps the last `CAP` entries of old-contents-plus-new
lines, and the length never exceeds `CAP`. -/
theorem push_run_lines (ls : List LogLine) :
    ∀ (s0 sF : AppState), s0.lines.length ≤ CAP →
      List.foldlM push_line s0 ls = Except.ok sF →
      sF.lines = (s0.lines ++ ls).drop (s0.lines.length + ls.length - CAP) ∧
      sF.lines.length ≤ CAP := by
  induction ls with
  | nil =>
    intro s0 sF h0 h
    simp only [List.foldlM_nil, pure, Except.pure] at h
    have h2 := Except.ok.inj h
    subst h2
    refine ⟨?_, h0⟩
    simp only [List.append_nil, List.length_nil, Nat.add_zero]
    rw [Nat.sub_eq_zero_of_le h0, List.drop_zero]
  | cons l t ih =>
    intro s0 sF h0 h
    rw [List.foldlM_cons] at h
    rcases hp : push_line s0 l with e | s1
    · rw [hp] at h; simp [Bind.bind, Except.bind] at h
    · rw [hp] at h
      simp only [Bind.bind, Except.bind] at h
      obtain ⟨e1, e2, _⟩ := push_line_ok hp
      have h1 : s1.lines.length ≤ CAP := by rw [e2]; omega
      obtain ⟨ih1, ih2⟩ := ih s1 sF h1 h
      refine ⟨?_, ih2⟩
      rw [ih1, e2, e1]
      rw [← List.drop_append_of_le_length (by simp [List.length_append])]
      rw [List.drop_drop]
      rw [List.append_assoc, List.singleton_append]
      have hidx : s0.lines.length + 1 - CAP +
          (min (s0.lines.length + 1) CAP + t.length - CAP) =
          s0.lines.length + (l :: t).length - CAP := by
        simp only [List.length_cons]
        omega
      rw [hidx]

/-- C2: starting from an empty buffer, appending any sequence of `N` lines
through `push_line` (cap 20000) keeps the buffer length at most `CAP` and
leaves exactly the last `min N CAP` appended lines, in arrival order (the
oldest excess is dropped as a contiguous prefix).  The same statement
applied to each prefix of the sequence gives the per-append invariant. -/
theorem c2_capacity (ls : List LogLine) (s0 sF : AppState)
    (h0 : s0.lines = [])
    (h : List.foldlM push_line s0 ls = Except.ok sF) :
    sF.lines.length ≤ CAP ∧ sF.lines = ls.drop (ls.length - CAP) ∧
    sF.lines.length = min ls.length CAP := by
  have hlen : s0.lines.length ≤ CAP := by rw [h0]; simp [CAP]
  obtain ⟨h1, h2⟩ := push_run_lines ls s0 sF hlen h
  rw [h0] at h1
  simp only [List.nil_append, List.length_nil, Nat.zero_add] at h1
  refine ⟨h2, h1, ?_⟩
  rw [h1]
  simp only [List.length_drop]
  omega

/-- Witness for C2: appending two lines from the empty buffer. -/
theorem c2_capacity_witness :
    init_app.lines = [] ∧
    List.foldlM push_line init_app [demo_line "alpha", demo_line "beta"] =
      Except.ok { init_app with lines := [demo_line "alpha", demo_line "beta"] } ∧
    (({ init_app with lines := [demo_line "alpha", demo_line "beta"] } : AppState).lines.length ≤ CAP ∧
     ({ init_app with lines := [demo_line "alpha", demo_line "beta"] } : AppState).lines =
       [demo_line "alpha", demo_line "beta"].drop ([demo_line "alpha", demo_line "beta"].length - CAP) ∧
     ({ init_app with lines := [demo_line "alpha", demo_line "beta"] } : AppState).lines.length =
       min [demo_line "alpha", demo_line "beta"].length CAP) :=
  ⟨rfl, rfl, c2_capacity [demo_line "alpha", demo_line "beta"] init_app _ rfl rfl⟩

/-- C6: scroll/eviction coupling.  Whenever `push_line` overflows the cap
it evicts `k = length + 1 - CAP > 0` lines and the scrolled-back offset is
decremented by exactly `k` with saturating (truncated) subtraction, so it
never goes below zero; an offset of zero stays zero. -/
theorem c6_scroll_eviction (s s1 : AppState) (l : LogLine)
    (hc : update_cook_state s l.text = Except.ok s1)
    (hk : CAP < s.lines.length + 1) :
    push_line s l = Except.ok { s1 with
        lines := (s1.lines ++ [l]).drop (s.lines.length + 1 - CAP),
        scroll_from_bottom :=
          s.scroll_from_bottom - (s.lines.length + 1 - CAP) } ∧
    0 < s.lines.length + 1 - CAP ∧
    (s.scroll_from_bottom = 0 →
      s.scroll_from_bottom - (s.lines.length + 1 - CAP) = 0) := by
  obtain ⟨el, es⟩ := update_cook_state_keeps_view hc
  have hlen : (s1.lines ++ [l]).length = s.lines.length + 1 := by
    simp [List.length_append, el]
  unfold push_line
  rw [hc]
  simp only [Bind.bind, Except.bind]
  rw [if_pos (by rw [hlen]; exact hk)]
  refine ⟨?_, by omega, by omega⟩
  rw [hlen, es]
  by_cases h0 : 0 < s.scroll_from_bottom
  · rw [if_pos h0]
  · rw [if_neg h0]
    have hz : s.scroll_from_bottom = 0 := by omega
    rw [hz]
    simp

/-- Witness for C6: pushing one more line onto a full buffer evicts exactly
one line and pulls the scroll offset from 5 down to 4. -/
theorem c6_scroll_eviction_witness :
    update_cook_state full_app (demo_line "y").text = Except.ok full_app ∧
    CAP < full_app.lines.length + 1 ∧
    (push_line full_app (demo_line "y") = Except.ok { full_app with
        lines := (full_app.lines ++ [demo_line "y"]).drop
          (full_app.lines.length + 1 - CAP),
        scroll_from_bottom :=
          full_app.scroll_from_bottom - (full_app.lines.length + 1 - CAP) } ∧
     0 < full_app.lines.length + 1 - CAP ∧
     (full_app.scroll_from_bottom = 0 →
       full_app.scroll_from_bottom - (full_app.lines.length + 1 - CAP) = 0)) :=
  ⟨rfl, by norm_num [full_app, CAP, List.length_replicate],
    c6_scroll_eviction full_app full_app (demo_line "y") rfl
      (by norm_num [full_app, CAP, List.length_replicate])⟩

/-- C9: truncation reset.  For any worker state with consumed offset
`O > 0`, when a stat reports length `L < O` the polling step resets the
offset to 0 before reading: the read (when any data and buffer space
exist) covers bytes `[0, min chunk.length L)`, and the new offset is that
same count — the next read starts from byte 0 of the file. -/
theorem c9_truncation_reset (w : TailWorker) (m : FileStat) (chunk : List Nat)
    (hO : 0 < w.offset) (hL : m.len < w.offset) :
    (tail_poll_step w (some m) chunk).1.offset = min chunk.length m.len ∧
    (tail_poll_step w (some m) chunk).2.1 =
      (if 0 < min chunk.length m.len then some (0, min chunk.length m.len)
       else none) := by
  unfold tail_poll_step
  cases hr : rotation_signal w m
  · simp only [hr, Bool.false_eq_true, if_false, if_pos hL, Nat.sub_zero]
    rcases Nat.eq_zero_or_pos m.len with h0 | h0
    · simp [h0]
    · rw [if_pos h0]
      by_cases hn : 0 < min chunk.length m.len
      · rw [if_pos hn, if_pos hn]
        exact ⟨by simp, rfl⟩
      · rw [if_neg hn, if_neg hn]
        exact ⟨by simp; omega, rfl⟩
  · simp only [hr, if_true]
    rw [if_neg (Nat.not_lt_zero m.len)]
    simp only [Nat.sub_zero]
    rcases Nat.eq_zero_or_pos m.len with h0 | h0
    · simp [h0]
    · rw [if_pos h0]
      by_cases hn : 0 < min chunk.length m.len
      · rw [if_pos hn, if_pos hn]
        exact ⟨by simp, rfl⟩
      · rw [if_neg hn, if_neg hn]
        exact ⟨by simp; omega, rfl⟩

theorem append_only_mono {c0 pm a b : Nat} (h : b ≤ a)
    {tr : List (FileStat × List Nat)}
    (ha : append_only c0 a pm tr = true) : append_only c0 b pm tr = true := by
  cases tr with
  | nil => rfl
  | cons head rest =>
    obtain ⟨⟨mlen, mcr, mmd⟩, c⟩ := head
    unfold append_only at ha ⊢
    cases mmd with
    | none => simp at ha
    | some t =>
      simp only [Bool.and_eq_true, decide_eq_true_eq] at ha ⊢
      obtain ⟨⟨h1, h2⟩, h3⟩ := ha
      exact ⟨⟨h1, by omega⟩, h3⟩

theorem tail_poll_step_append {w : TailWorker} {m : FileStat} {c0 t : Nat}
    (chunk : List Nat)
    (hc : w.lastCreated = none ∨ w.lastCreated = some c0)
    (hmc : m.created = some c0)
    (hmm : m.modified = some t)
    (hpm : ∀ u, w.lastModified = some u → u ≤ t)
    (hlen : w.offset ≤ m.len) :
    w.offset ≤ (tail_poll_step w (some m) chunk).1.offset ∧
    (tail_poll_step w (some m) chunk).1.offset ≤ m.len ∧
    (∀ p ∈ (tail_poll_step w (some m) chunk).2.1.toList, p.1 = w.offset) ∧
    (tail_poll_step w (some m) chunk).1.lastCreated = some c0 ∧
    (tail_poll_step w (some m) chunk).1.lastModified = some t := by
  have hcreated : (match w.lastCreated, m.created with
      | some p, some c => c != p
      | _, _ => false) = false := by
    rw [hmc]
    rcases hc with h | h <;> rw [h] <;> simp
  have hmodback : (match w.lastModified, m.modified with
      | some p, some c => decide (c < p)
      | _, _ => false) = false := by
    rw [hmm]
    rcases hm2 : w.lastModified with _ | u
    · rfl
    · exact decide_eq_false (by have := hpm u hm2; omega)
  have hr : rotation_signal w m = false := by
    unfold rotation_signal
    rw [hcreated, hmodback]
    rfl
  have hlc : (m.created.orElse fun _ => w.lastCreated) = some c0 := by
    rw [hmc]; rfl
  have hlm : (m.modified.orElse fun _ => w.lastModified) = some t := by
    rw [hmm]; rfl
  unfold tail_poll_step
  simp only [hr, Bool.false_eq_true, if_false]
  rw [if_neg (show ¬ m.len < w.offset by omega)]
  by_cases hread : w.offset < m.len
  · rw [if_pos hread]
    by_cases hn : 0 < min chunk.length (m.len - w.offset)
    · rw [if_pos hn]
      refine ⟨by simp, by simp; omega, ?_, hlc, hlm⟩
      intro p hp
      simp only [Option.toList_some, List.mem_singleton] at hp
      rw [hp]
    · rw [if_neg hn]
      refine ⟨by simp, by simp; omega, ?_, hlc, hlm⟩
      intro p hp
      simp at hp
  · rw [if_neg hread]
    refine ⟨by simp, by simp; omega, ?_, hlc, hlm⟩
    intro p hp
    simp at hp

theorem tail_run_reads_from_tail (c0 : Nat) :
    ∀ (tr : List (FileStat × List Nat)) (w : TailWorker) (pm : Nat),
      (w.lastCreated = none ∨ w.lastCreated = some c0) →
      (∀ u, w.lastModified = some u → u ≤ pm) →
      append_only c0 w.offset pm tr = true →
      ∀ p ∈ (tail_run w tr).2, w.offset ≤ p.1 := by
  intro tr
  induction tr with
  | nil =>
    intro w pm hc hm h p hp
    simp [tail_run] at hp
  | cons head rest ih =>
    obtain ⟨⟨mlen, mcr, mmd⟩, cbytes⟩ := head
    intro w pm hc hm h p hp
    unfold append_only at h
    cases mmd with
    | none => simp at h
    | some t =>
      simp only [Bool.and_eq_true, decide_eq_true_eq, beq_iff_eq] at h
      obtain ⟨⟨hmc, hlen⟩, hpmt, hrest⟩ := h
      have hstep := tail_poll_step_append (m := ⟨mlen, mcr, some t⟩) cbytes hc hmc rfl
        (fun u hu => le_trans (hm u hu) hpmt) hlen
      obtain ⟨hmono, hle, hranges, hlc, hlm⟩ := hstep
      unfold tail_run at hp
      simp only [List.mem_append] at hp
      rcases hp with hp | hp
      · rw [hranges p hp]
      · have hrec := ih (tail_poll_step w (some ⟨mlen, mcr, some t⟩) cbytes).1 t
          (Or.inr hlc)
          (fun u hu => by rw [hlm] at hu; have := Option.some.inj hu; omega)
          (append_only_mono hle hrest) p hp
        omega

/-- C10: at session start the worker's initial consumed offset is the
file's current length (`0` when the stat fails because the file does not
exist yet), and along any append-only observation trace (constant
creation time, non-decreasing modification time and length, no rotation,
no truncation, no Clear command) every byte range the worker consumes —
hence every emitted `Line` event — starts at or after the initial length
`L0`: content present before the session is never delivered, only content
appended afterwards. -/
theorem c10_initial_offset_tail (L0 cr0 : Nat) (tr : List (FileStat × List Nat))
    (h : append_only cr0 L0 0 tr = true) :
    initial_offset (some L0) = L0 ∧ initial_offset none = 0 ∧
    ∀ p ∈ (tail_run (session_start (some L0)) tr).2, L0 ≤ p.1 := by
  refine ⟨rfl, rfl, ?_⟩
  intro p hp
  exact tail_run_reads_from_tail cr0 tr (session_start (some L0)) 0
    (Or.inl rfl) (fun u hu => by simp [session_start] at hu) h p hp

/-- Witness for C10 on `demo_trace`: the initial offset is 5 and every
consumed range starts at or after byte 5. -/
theorem c10_initial_offset_tail_witness :
    append_only 1 5 0 demo_trace = true ∧
    (initial_offset (some 5) = 5 ∧ initial_offset none = 0 ∧
     ∀ p ∈ (tail_run (session_start (some 5)) demo_trace).2, 5 ≤ p.1) :=
  ⟨by decide, c10_initial_offset_tail 5 1 demo_trace (by decide)⟩

theorem c9_truncation_reset_witness :
    0 < demo_worker.offset ∧ demo_stat.len < demo_worker.offset ∧
    ((tail_poll_step demo_worker (some demo_stat) [104, 105]).1.offset =
       min [104, 105].length demo_stat.len ∧
     (tail_poll_step demo_worker (some demo_stat) [104, 105]).2.1 =
       (if 0 < min [104, 105].length demo_stat.len
        then some (0, min [104, 105].length demo_stat.len) else none)) :=
  ⟨by decide, by decide,
    c9_truncation_reset demo_worker demo_stat [104, 105] (by decide) (by decide)⟩
